import Mathlib

set_option maxHeartbeats 1000000

/-!
Verification of the unconfirmed-transaction pool ("mempool") of the Sia
repository.  The repository sources available here contain only the pool's
integration tests; the pool implementation itself (the `transactionpool`
module: `AcceptTransactionSet`, the conflict index, the fee policy, the
broadcast selector and the block-confirmation reconciler) is absent, so the
pool is modelled from the specification (spec.md §3-§4.5), faithful to its
words.  The model is executable throughout; machine integers are modelled as
`Nat` (no overflow is relevant to any statement below).
-/

/-- Modelled from the spec: a Claimed Resource (§3) — a spendable or revisable
on-chain object: a siacoin-output id, a siafund-output id, or a file-contract
id (claimed by a revision or a storage proof). -/
inductive Resource where
  | coinOutput (i : Nat)
  | tokenOutput (i : Nat)
  | contract (i : Nat)
deriving DecidableEq, Repr

/-- Modelled from the spec: a Transaction (§3) — an immutable value with a
deterministic identifier, the resources it consumes (spent output ids,
contract ids under revision or proof), the resources it produces (new outputs,
new contracts), its serialized byte size and its aggregate miner fee. -/
structure Transaction where
  id : Nat
  consumes : List Resource
  produces : List Resource
  size : Nat
  fee : Nat
deriving DecidableEq, Repr

/-- A Transaction Set: an ordered sequence of transactions submitted
together (§3). -/
abbrev TSet := List Transaction

/-- The ordered member-identifier sequence from which a set's identifier is
derived (§3). -/
def setIds (ts : TSet) : List Nat := ts.map Transaction.id

/-- The Claimed Resources of a set: every resource its members consume. -/
def setClaims (ts : TSet) : List Resource := ts.flatMap Transaction.consumes

/-- The resources produced by the members of a set. -/
def setProduces (ts : TSet) : List Resource := ts.flatMap Transaction.produces

/-- Serialized byte size of a set (the fee-policy occupancy unit). -/
def setSize (ts : TSet) : Nat := (ts.map Transaction.size).sum

/-- Aggregate miner fee of a set. -/
def setFee (ts : TSet) : Nat := (ts.map Transaction.fee).sum

/-- Modelled from the spec: Pool State (§3) — the confirmed chain state the
Chain Oracle reads (the currently spendable confirmed resources) together
with the resident transaction sets, in admission order.  The reverse member
index and the Conflict Index are maintained fully consistent with Pool State
(§3), so they are derived structures here (`setClaims` of each resident). -/
structure State where
  confirmed : List Resource
  transactionSets : List TSet
deriving DecidableEq, Repr

/-- All resources produced by transactions of resident sets (available for
cross-set dependency resolution, §3 invariant (c)). -/
def residentProduces (pool : List TSet) : List Resource :=
  pool.flatMap setProduces

/-- Modelled from the spec: chain-level validation of a candidate set
(§4.1/§4.2 step 1 together with the §3 Transaction Set invariant): walking
the set in order, every resource a member consumes must be (a) confirmed
on-chain, (b) produced earlier in the same set, or (c) produced by a resident
set, and must not have been spent by an earlier member of the same set. -/
def validSetAux (confirmed residentProd : List Resource) :
    List Resource → List Resource → List Transaction → Bool
  | _, _, [] => true
  | prodEarlier, spent, t :: rest =>
      (t.consumes.all fun r =>
        decide ((r ∈ confirmed ∨ r ∈ residentProd ∨ r ∈ prodEarlier) ∧ r ∉ spent))
      && validSetAux confirmed residentProd
          (prodEarlier ++ t.produces) (spent ++ t.consumes) rest

/-- Chain-level validation of a whole candidate set. -/
def validSet (confirmed residentProd : List Resource) (cand : TSet) : Bool :=
  validSetAux confirmed residentProd [] [] cand

/-- Boolean test that the first identifier sequence is an initial segment of
the second. -/
def isLeadingSeq : List Nat → List Nat → Bool
  | [], _ => true
  | _ :: _, [] => false
  | a :: as, b :: bs => decide (a = b) && isLeadingSeq as bs

/-- Boolean test that the first identifier sequence is a subsequence of the
second (order-preserving containment). -/
def isSubseq : List Nat → List Nat → Bool
  | [], _ => true
  | _ :: _, [] => false
  | a :: as, b :: bs => if a = b then isSubseq as bs else isSubseq (a :: as) bs

/-- Modelled from the spec: duplicate classification (§4.2 step 2 and the
§4.2 edge case) — the candidate's member-identifier sequence is identical to,
or a strict initial segment of, a resident set's sequence. -/
def isDuplicate (pool : List TSet) (cand : TSet) : Bool :=
  pool.any fun res => isLeadingSeq (setIds cand) (setIds res)

/-- A resident set is subsumed by the candidate when the candidate fully
contains it as a subsequence (§4.2 step 3, superset classification). -/
def subsumedBy (cand res : TSet) : Bool :=
  isSubseq (setIds res) (setIds cand)

/-- Modelled from the spec: conflict check (§4.2 steps 3-4) — every Claimed
Resource required by the candidate must be free or claimed only by resident
sets wholly subsumed by the candidate. -/
def claimsAdmissible (pool : List TSet) (cand : TSet) : Bool :=
  (setClaims cand).all fun r =>
    pool.all fun res =>
      decide (r ∈ setClaims res → subsumedBy cand res = true)

/-- Byte occupancy of the pool (§4.3). -/
def poolSize (pool : List TSet) : Nat := (pool.map setSize).sum

/-- Fee-policy configuration (§4.3): bytes admitted without fee scrutiny and
the per-byte fee floor applied beyond that. -/
structure Config where
  maxPoolSizeFree : Nat
  minFeePerByte : Nat
deriving DecidableEq, Repr

/-- Committing a candidate (§4.2 steps 3/5): the resident sets it subsumes
are evicted and the candidate becomes a new resident set, inheriting their
Conflict Index claims plus any new ones. -/
def commitPool (pool : List TSet) (cand : TSet) : List TSet :=
  pool.filter (fun res => !(subsumedBy cand res)) ++ [cand]

instance {ε α : Type} [DecidableEq ε] [DecidableEq α] : DecidableEq (Except ε α) := fun a b =>
  match a, b with
  | .ok x, .ok y =>
      if h : x = y then .isTrue (by rw [h]) else .isFalse (fun hc => by cases hc; exact h rfl)
  | .error x, .error y =>
      if h : x = y then .isTrue (by rw [h]) else .isFalse (fun hc => by cases hc; exact h rfl)
  | .ok _, .error _ => .isFalse (fun hc => by cases hc)
  | .error _, .ok _ => .isFalse (fun hc => by cases hc)

/-- The error kinds of `AcceptTransactionSet` (§7). -/
inductive AcceptError where
  | errEmptySet
  | errChainValidation
  | errDuplicateTransactionSet
  | errConflictingTransactionSet
  | errLowMinerFees
deriving DecidableEq, Repr

/-- Modelled from the spec: the Acceptance Engine `AcceptTransactionSet`
(§4.2).  An empty candidate is rejected with `errEmptySet`; chain-level
validation failures short-circuit with the oracle's error; a duplicate
(identical or initial-segment) candidate fails with
`errDuplicateTransactionSet`; a candidate claiming a resource held by a
non-subsumed resident set fails with `errConflictingTransactionSet`;
otherwise the candidate is committed, and if occupancy after admission
exceeds the free ceiling while the candidate's fee-per-byte is below the
floor, the admission is rolled back with `errLowMinerFees`. -/
def AcceptTransactionSet (cfg : Config) (st : State) (cand : TSet) :
    Except AcceptError State :=
  if cand.isEmpty then .error .errEmptySet
  else if !(validSet st.confirmed (residentProduces st.transactionSets) cand) then
    .error .errChainValidation
  else if isDuplicate st.transactionSets cand then
    .error .errDuplicateTransactionSet
  else if !(claimsAdmissible st.transactionSets cand) then
    .error .errConflictingTransactionSet
  else if cfg.maxPoolSizeFree < poolSize (commitPool st.transactionSets cand) ∧
      setFee cand < cfg.minFeePerByte * setSize cand then
    .error .errLowMinerFees
  else
    .ok { st with transactionSets := commitPool st.transactionSets cand }

/-- Modelled from the spec: `PurgeTransactionPool` (§5/§6) — atomically clears
Pool State (and with it the derived reverse index and Conflict Index). -/
def PurgeTransactionPool (st : State) : State :=
  { st with transactionSets := [] }

/-- Modelled from the spec: `TransactionList` (§6) — the flattened list of all
resident transactions, in pool order. -/
def TransactionList (st : State) : List Transaction :=
  st.transactionSets.flatten

/-- The state observed by the caller after an `AcceptTransactionSet` call: the
committed state on success, the unchanged state on any error. -/
def applyAccept (cfg : Config) (st : State) (cand : TSet) : State :=
  match AcceptTransactionSet cfg st cand with
  | .ok st' => st'
  | .error _ => st

/-- The resources a newly accepted block confirms as spent (the spends the
block made): every resource consumed by one of its transactions. -/
def blockConfirmedSpends (block : List Transaction) : List Resource :=
  block.flatMap Transaction.consumes

/-- Modelled from the spec: the Block-Confirmation Reconciler (§4.5) — on
notification of an accepted block, every resident set whose Claimed Resources
intersect with resources the block confirmed (whether the set was included in
the block or merely conflicts with it) is removed from Pool State; the
confirmed chain state loses the spent resources and gains the produced
ones. -/
def NotifyBlockAccepted (st : State) (block : List Transaction) : State :=
  { confirmed :=
      st.confirmed.filter (fun r => !((blockConfirmedSpends block).contains r))
        ++ block.flatMap Transaction.produces,
    transactionSets :=
      st.transactionSets.filter fun ts =>
        !((setClaims ts).any fun r => (blockConfirmedSpends block).contains r) }

/-- Modelled from the spec: a Peer Descriptor (§3) — a network address plus a
declared protocol-capability version (dotted numerals, modelled as the list of
numeric components). -/
structure Peer where
  netAddress : String
  version : List Nat
deriving DecidableEq, Repr

/-- Lexicographic greater-or-equal on dotted version numerals. -/
def versionGE : List Nat → List Nat → Bool
  | _, [] => true
  | [], _ :: _ => false
  | a :: as, b :: bs => if b < a then true else if a < b then false else versionGE as bs

/-- Modelled from the spec: the minimum protocol version a peer must declare
to receive relayed transaction sets (v0.4.7, §4.4). -/
def minimumPeerRelayVersion : List Nat := [0, 4, 7]

/-- Modelled from the spec: the Broadcast Selector (§4.4) — filters the peer
list to those whose declared capability version is greater-or-equal to the
configured minimum; peers below it are silently skipped. -/
def relayPeers (minVersion : List Nat) (peers : List Peer) : List Peer :=
  peers.filter fun p => versionGE p.version minVersion

/-- Acceptance followed by relay (§4.2 step 6): on success the accepted set is
relayed to exactly the version-filtered peers; on any error nothing is
broadcast.  The pair returned is the admission result and the list of peers
that receive the relay call. -/
def acceptAndRelay (cfg : Config) (peers : List Peer) (st : State) (cand : TSet) :
    Except AcceptError State × List Peer :=
  match AcceptTransactionSet cfg st cand with
  | .ok st' => (.ok st', relayPeers minimumPeerRelayVersion peers)
  | .error e => (.error e, [])

/-- The mempool double-spend invariant (§3): each Claimed Resource is claimed
by at most one resident Transaction Set, i.e. the claims of distinct resident
sets are pairwise disjoint. -/
def UniqueClaims (pool : List TSet) : Prop :=
  pool.Pairwise fun a b => ∀ r ∈ setClaims a, r ∉ setClaims b

instance (pool : List TSet) : Decidable (UniqueClaims pool) := by
  unfold UniqueClaims
  infer_instance

/-- The spec's Transaction Set residency invariant (§3): every resident set
still passes chain-level validation in the current state. -/
def ResidentsValid (st : State) : Prop :=
  ∀ ts ∈ st.transactionSets,
    validSet st.confirmed (residentProduces st.transactionSets) ts = true

instance (st : State) : Decidable (ResidentsValid st) := by
  unfold ResidentsValid
  exact List.decidableBAll _ st.transactionSets

/-! Helper lemmas about the identifier-sequence tests. -/

lemma isLeadingSeq_append (l₁ l₂ : List Nat) : isLeadingSeq l₁ (l₁ ++ l₂) = true := by
  induction l₁ with
  | nil => rfl
  | cons a as ih => simp [isLeadingSeq, ih]

lemma isSubseq_of_isLeadingSeq :
    ∀ {l₁ l₂ : List Nat}, isLeadingSeq l₁ l₂ = true → isSubseq l₁ l₂ = true := by
  intro l₁
  induction l₁ with
  | nil => intro l₂ _; cases l₂ <;> rfl
  | cons a as ih =>
    intro l₂ h
    cases l₂ with
    | nil => simp [isLeadingSeq] at h
    | cons b bs =>
      simp only [isLeadingSeq, Bool.and_eq_true, decide_eq_true_eq] at h
      obtain ⟨rfl, h2⟩ := h
      simp [isSubseq, ih h2]

lemma isSubseq_subset :
    ∀ {l₂ l₁ : List Nat}, isSubseq l₁ l₂ = true → ∀ x ∈ l₁, x ∈ l₂ := by
  intro l₂
  induction l₂ with
  | nil =>
    intro l₁ h
    cases l₁ with
    | nil => intro x hx; simp at hx
    | cons a as => simp [isSubseq] at h
  | cons b bs ih =>
    intro l₁ h x hx
    cases l₁ with
    | nil => simp at hx
    | cons a as =>
      by_cases hab : a = b
      · subst hab
        rw [isSubseq, if_pos rfl] at h
        rcases List.mem_cons.mp hx with rfl | hx'
        · exact List.mem_cons_self _ _
        · exact List.mem_cons_of_mem _ (ih h x hx')
      · rw [isSubseq, if_neg hab] at h
        exact List.mem_cons_of_mem _ (ih h x hx)

/-! Helper lemmas about chain-level validation. -/

lemma validSetAux_mono {confirmed rp rp' : List Resource}
    (hsub : ∀ r ∈ rp, r ∈ rp') :
    ∀ (l : List Transaction) (pE sp : List Resource),
      validSetAux confirmed rp pE sp l = true →
      validSetAux confirmed rp' pE sp l = true := by
  intro l
  induction l with
  | nil => intro pE sp _; rfl
  | cons t rest ih =>
    intro pE sp h
    simp only [validSetAux, Bool.and_eq_true, List.all_eq_true, decide_eq_true_eq] at h ⊢
    refine ⟨fun r hr => ⟨?_, (h.1 r hr).2⟩, ih _ _ h.2⟩
    rcases (h.1 r hr).1 with hc | hm | hp
    · exact Or.inl hc
    · exact Or.inr (Or.inl (hsub r hm))
    · exact Or.inr (Or.inr hp)

lemma validSetAux_of_append {confirmed rp : List Resource} :
    ∀ (l₁ l₂ : List Transaction) (pE sp : List Resource),
      validSetAux confirmed rp pE sp (l₁ ++ l₂) = true →
      validSetAux confirmed rp pE sp l₁ = true := by
  intro l₁
  induction l₁ with
  | nil => intro l₂ pE sp _; rfl
  | cons t rest ih =>
    intro l₂ pE sp h
    simp only [List.cons_append, validSetAux, Bool.and_eq_true] at h ⊢
    exact ⟨h.1, ih l₂ _ _ h.2⟩

lemma validSet_mono {confirmed rp rp' : List Resource} {cand : TSet}
    (hsub : ∀ r ∈ rp, r ∈ rp') (h : validSet confirmed rp cand = true) :
    validSet confirmed rp' cand = true :=
  validSetAux_mono hsub cand [] [] h

lemma validSet_of_append {confirmed rp : List Resource} {l₁ l₂ : TSet}
    (h : validSet confirmed rp (l₁ ++ l₂) = true) :
    validSet confirmed rp l₁ = true :=
  validSetAux_of_append l₁ l₂ [] [] h

/-! Helper lemmas about the Acceptance Engine's branches. -/

lemma accept_ok_inv {cfg : Config} {st st' : State} {cand : TSet}
    (h : AcceptTransactionSet cfg st cand = .ok st') :
    cand ≠ [] ∧
    validSet st.confirmed (residentProduces st.transactionSets) cand = true ∧
    isDuplicate st.transactionSets cand = false ∧
    claimsAdmissible st.transactionSets cand = true ∧
    ¬(cfg.maxPoolSizeFree < poolSize (commitPool st.transactionSets cand) ∧
        setFee cand < cfg.minFeePerByte * setSize cand) ∧
    st' = { confirmed := st.confirmed,
            transactionSets := commitPool st.transactionSets cand } := by
  unfold AcceptTransactionSet at h
  split_ifs at h with h1 h2 h3 h4 h5
  all_goals simp_all

lemma accept_ok_of {cfg : Config} {st : State} {cand : TSet}
    (h1 : cand ≠ [])
    (h2 : validSet st.confirmed (residentProduces st.transactionSets) cand = true)
    (h3 : isDuplicate st.transactionSets cand = false)
    (h4 : claimsAdmissible st.transactionSets cand = true)
    (h5 : ¬(cfg.maxPoolSizeFree < poolSize (commitPool st.transactionSets cand) ∧
        setFee cand < cfg.minFeePerByte * setSize cand)) :
    AcceptTransactionSet cfg st cand =
      .ok { confirmed := st.confirmed,
            transactionSets := commitPool st.transactionSets cand } := by
  unfold AcceptTransactionSet
  have he : cand.isEmpty = false := by
    cases cand with
    | nil => exact absurd rfl h1
    | cons a as => rfl
  rw [he]
  simp only [Bool.false_eq_true, if_false, h2, h3, Bool.not_true, Bool.not_false,
    Bool.true_eq_false, h4, if_false, if_neg h5]

lemma accept_chain_invalid {cfg : Config} {st : State} {cand : TSet}
    (h1 : cand ≠ [])
    (h2 : validSet st.confirmed (residentProduces st.transactionSets) cand = false) :
    AcceptTransactionSet cfg st cand = .error .errChainValidation := by
  unfold AcceptTransactionSet
  have he : cand.isEmpty = false := by
    cases cand with
    | nil => exact absurd rfl h1
    | cons a as => rfl
  rw [he]
  simp [h2]

lemma accept_duplicate_of {cfg : Config} {st : State} {cand : TSet}
    (h1 : cand ≠ [])
    (h2 : validSet st.confirmed (residentProduces st.transactionSets) cand = true)
    (h3 : isDuplicate st.transactionSets cand = true) :
    AcceptTransactionSet cfg st cand = .error .errDuplicateTransactionSet := by
  unfold AcceptTransactionSet
  have he : cand.isEmpty = false := by
    cases cand with
    | nil => exact absurd rfl h1
    | cons a as => rfl
  rw [he]
  simp [h2, h3]

lemma accept_conflict_of {cfg : Config} {st : State} {cand : TSet}
    (h1 : cand ≠ [])
    (h2 : validSet st.confirmed (residentProduces st.transactionSets) cand = true)
    (h3 : isDuplicate st.transactionSets cand = false)
    (h4 : claimsAdmissible st.transactionSets cand = false) :
    AcceptTransactionSet cfg st cand = .error .errConflictingTransactionSet := by
  unfold AcceptTransactionSet
  have he : cand.isEmpty = false := by
    cases cand with
    | nil => exact absurd rfl h1
    | cons a as => rfl
  rw [he]
  simp [h2, h3, h4]

lemma claimsAdmissible_false_of {pool : List TSet} {cand res : TSet} {r : Resource}
    (hres : res ∈ pool) (hr : r ∈ setClaims cand) (hclaim : r ∈ setClaims res)
    (hnsub : subsumedBy cand res = false) :
    claimsAdmissible pool cand = false := by
  rw [← Bool.not_eq_true]
  intro hall
  simp only [claimsAdmissible, List.all_eq_true, decide_eq_true_eq] at hall
  have := hall r hr res hres hclaim
  rw [this] at hnsub
  simp at hnsub

/-! Claim theorems. -/

/-- C6: `AcceptTransactionSet` rejects an empty candidate with the empty-set
error: both an absent (nil) set and a zero-length set are the empty list of
the model, the call returns `errEmptySet`, and the observed pool state is
unchanged. -/
theorem empty_set_rejected (cfg : Config) (st : State) :
    AcceptTransactionSet cfg st [] = .error .errEmptySet ∧
    applyAccept cfg st [] = st :=
  ⟨rfl, rfl⟩

/-- C6 witness at a concrete configuration and state. -/
theorem empty_set_rejected_witness :
    AcceptTransactionSet ⟨10, 1⟩ ⟨[Resource.coinOutput 0], []⟩ [] =
      .error .errEmptySet ∧
    applyAccept ⟨10, 1⟩ ⟨[Resource.coinOutput 0], []⟩ [] =
      ⟨[Resource.coinOutput 0], []⟩ :=
  empty_set_rejected ⟨10, 1⟩ ⟨[Resource.coinOutput 0], []⟩

/-- C2: the Claimed-Resource invariant — if each resource is claimed by at
most one resident set (pairwise-disjoint claims), then after any completed
`AcceptTransactionSet` call (success or failure), after
`PurgeTransactionPool`, and after a block-confirmation reconciliation, the
invariant still holds; a successful admission evicts exactly the subsumed
residents, so the candidate never shares a claim with a surviving set. -/
theorem claimed_resource_unique_claimant (cfg : Config) (st : State) (cand : TSet)
    (block : List Transaction) (h : UniqueClaims st.transactionSets) :
    UniqueClaims (applyAccept cfg st cand).transactionSets ∧
    UniqueClaims (PurgeTransactionPool st).transactionSets ∧
    UniqueClaims (NotifyBlockAccepted st block).transactionSets := by
  refine ⟨?_, ?_, ?_⟩
  · unfold applyAccept
    cases hA : AcceptTransactionSet cfg st cand with
    | error e => exact h
    | ok st' =>
      obtain ⟨-, -, -, h4, -, rfl⟩ := accept_ok_inv hA
      unfold UniqueClaims commitPool
      rw [List.pairwise_append]
      refine ⟨List.Pairwise.sublist (List.filter_sublist _) h,
        List.pairwise_singleton _ _, ?_⟩
      intro a ha b hb r hra hrb
      rw [List.mem_singleton] at hb
      subst hb
      rw [List.mem_filter] at ha
      simp only [claimsAdmissible, List.all_eq_true, decide_eq_true_eq] at h4
      have hsub := h4 r hrb a ha.1 hra
      rw [hsub] at ha
      simp at ha
  · exact List.Pairwise.nil
  · exact List.Pairwise.sublist (List.filter_sublist _) h

/-- C2 witness: a concrete pool of two claim-disjoint resident sets, a
candidate, and a block. -/
theorem claimed_resource_unique_claimant_witness :
    UniqueClaims [[⟨1, [Resource.coinOutput 0], [], 1, 0⟩],
        [⟨2, [Resource.coinOutput 1], [], 1, 0⟩]] ∧
    (UniqueClaims (applyAccept ⟨100, 1⟩
        ⟨[Resource.coinOutput 0, Resource.coinOutput 1, Resource.coinOutput 2],
          [[⟨1, [Resource.coinOutput 0], [], 1, 0⟩],
           [⟨2, [Resource.coinOutput 1], [], 1, 0⟩]]⟩
        [⟨3, [Resource.coinOutput 2], [], 1, 0⟩]).transactionSets ∧
      UniqueClaims (PurgeTransactionPool
        ⟨[Resource.coinOutput 0, Resource.coinOutput 1, Resource.coinOutput 2],
          [[⟨1, [Resource.coinOutput 0], [], 1, 0⟩],
           [⟨2, [Resource.coinOutput 1], [], 1, 0⟩]]⟩).transactionSets ∧
      UniqueClaims (NotifyBlockAccepted
        ⟨[Resource.coinOutput 0, Resource.coinOutput 1, Resource.coinOutput 2],
          [[⟨1, [Resource.coinOutput 0], [], 1, 0⟩],
           [⟨2, [Resource.coinOutput 1], [], 1, 0⟩]]⟩
        [⟨1, [Resource.coinOutput 0], [], 1, 0⟩]).transactionSets) :=
  ⟨by decide, claimed_resource_unique_claimant _ _ _ _ (by decide)⟩

lemma setIds_append (l₁ l₂ : TSet) : setIds (l₁ ++ l₂) = setIds l₁ ++ setIds l₂ :=
  List.map_append _ _ _

/-- C3: re-submitting a set S that is resident in the pool (given the §3
residency invariant that residents still pass chain validation) returns
`errDuplicateTransactionSet`, and so does re-submitting any non-empty initial
segment P of S; in both cases the observed pool state is unchanged.  (An
initial segment that is empty is not a Transaction Set at all — §3 defines a
set as non-empty — and is rejected as such.) -/
theorem resubmitted_set_is_duplicate (cfg : Config) (st : State) (S P : TSet)
    (hwf : ResidentsValid st) (hS : S ∈ st.transactionSets)
    (hpre : ∃ Q, P ++ Q = S) (hne : P ≠ []) :
    AcceptTransactionSet cfg st P = .error .errDuplicateTransactionSet ∧
    applyAccept cfg st P = st := by
  obtain ⟨Q, rfl⟩ := hpre
  have hv : validSet st.confirmed (residentProduces st.transactionSets) P = true :=
    validSet_of_append (hwf _ hS)
  have hd : isDuplicate st.transactionSets P = true := by
    rw [isDuplicate, List.any_eq_true]
    refine ⟨P ++ Q, hS, ?_⟩
    rw [setIds_append]
    exact isLeadingSeq_append _ _
  have herr := @accept_duplicate_of cfg st P hne hv hd
  refine ⟨herr, ?_⟩
  unfold applyAccept
  rw [herr]

/-- C3 witness: a resident parent/child set, re-submitted whole and as its
one-transaction initial segment. -/
theorem resubmitted_set_is_duplicate_witness :
    ResidentsValid ⟨[Resource.coinOutput 0],
      [[⟨1, [Resource.coinOutput 0], [Resource.coinOutput 10], 1, 0⟩,
        ⟨2, [Resource.coinOutput 10], [], 1, 0⟩]]⟩ ∧
    (AcceptTransactionSet ⟨100, 1⟩
        ⟨[Resource.coinOutput 0],
          [[⟨1, [Resource.coinOutput 0], [Resource.coinOutput 10], 1, 0⟩,
            ⟨2, [Resource.coinOutput 10], [], 1, 0⟩]]⟩
        [⟨1, [Resource.coinOutput 0], [Resource.coinOutput 10], 1, 0⟩] =
      .error .errDuplicateTransactionSet ∧
    applyAccept ⟨100, 1⟩
        ⟨[Resource.coinOutput 0],
          [[⟨1, [Resource.coinOutput 0], [Resource.coinOutput 10], 1, 0⟩,
            ⟨2, [Resource.coinOutput 10], [], 1, 0⟩]]⟩
        [⟨1, [Resource.coinOutput 0], [Resource.coinOutput 10], 1, 0⟩] =
      ⟨[Resource.coinOutput 0],
        [[⟨1, [Resource.coinOutput 0], [Resource.coinOutput 10], 1, 0⟩,
          ⟨2, [Resource.coinOutput 10], [], 1, 0⟩]]⟩) :=
  ⟨by decide,
    resubmitted_set_is_duplicate _ _
      [⟨1, [Resource.coinOutput 0], [Resource.coinOutput 10], 1, 0⟩,
       ⟨2, [Resource.coinOutput 10], [], 1, 0⟩] _
      (by decide) (by decide)
      ⟨[⟨2, [Resource.coinOutput 10], [], 1, 0⟩], rfl⟩ (by decide)⟩

/-- C1 counterexample: two transaction sets that are each individually valid
from the empty pool and both spend coin output 0 — `S = [T1]` and
`S' = [T1, T2]` with `T2` spending `T1`'s output — yet accepting S and then
S' does NOT fail with the conflict error: S' is a superset of the resident S,
so the second call succeeds and replaces S, contradicting the claim's
unconditional "the second fail[s] with ErrConflictingTransactionSet". -/
theorem conflicting_order_counterexample :
    AcceptTransactionSet ⟨100, 1⟩ ⟨[Resource.coinOutput 0], []⟩
        [⟨1, [Resource.coinOutput 0], [Resource.coinOutput 10], 1, 0⟩] =
      .ok ⟨[Resource.coinOutput 0],
        [[⟨1, [Resource.coinOutput 0], [Resource.coinOutput 10], 1, 0⟩]]⟩ ∧
    AcceptTransactionSet ⟨100, 1⟩ ⟨[Resource.coinOutput 0], []⟩
        [⟨1, [Resource.coinOutput 0], [Resource.coinOutput 10], 1, 0⟩,
         ⟨2, [Resource.coinOutput 10], [], 1, 0⟩] =
      .ok ⟨[Resource.coinOutput 0],
        [[⟨1, [Resource.coinOutput 0], [Resource.coinOutput 10], 1, 0⟩,
          ⟨2, [Resource.coinOutput 10], [], 1, 0⟩]]⟩ ∧
    Resource.coinOutput 0 ∈
      setClaims [⟨1, [Resource.coinOutput 0], [Resource.coinOutput 10], 1, 0⟩] ∧
    Resource.coinOutput 0 ∈
      setClaims [⟨1, [Resource.coinOutput 0], [Resource.coinOutput 10], 1, 0⟩,
        ⟨2, [Resource.coinOutput 10], [], 1, 0⟩] ∧
    AcceptTransactionSet ⟨100, 1⟩
        ⟨[Resource.coinOutput 0],
          [[⟨1, [Resource.coinOutput 0], [Resource.coinOutput 10], 1, 0⟩]]⟩
        [⟨1, [Resource.coinOutput 0], [Resource.coinOutput 10], 1, 0⟩,
         ⟨2, [Resource.coinOutput 10], [], 1, 0⟩] ≠
      .error .errConflictingTransactionSet ∧
    AcceptTransactionSet ⟨100, 1⟩
        ⟨[Resource.coinOutput 0],
          [[⟨1, [Resource.coinOutput 0], [Resource.coinOutput 10], 1, 0⟩]]⟩
        [⟨1, [Resource.coinOutput 0], [Resource.coinOutput 10], 1, 0⟩,
         ⟨2, [Resource.coinOutput 10], [], 1, 0⟩] =
      .ok ⟨[Resource.coinOutput 0],
        [[⟨1, [Resource.coinOutput 0], [Resource.coinOutput 10], 1, 0⟩,
          ⟨2, [Resource.coinOutput 10], [], 1, 0⟩]]⟩ := by
  decide

/-- C1 (amended): for any two transaction sets S and S' that are each
individually valid and spend a common output, provided additionally that
neither set's member-identifier sequence is a subsequence of the other's (so
that neither submission is classified as a duplicate or as a superset
replacement), whichever conflicting set is accepted first wins: accepting S
then S' makes the second call fail with `errConflictingTransactionSet`, and
after `PurgeTransactionPool` the reverse order makes S' succeed and S fail
with the same conflict error. -/
theorem conflicting_sets_first_accepted_wins
    (cfg : Config) (conf : List Resource) (S S' : TSet) (st1 st2 : State) (r : Resource)
    (h1 : AcceptTransactionSet cfg ⟨conf, []⟩ S = .ok st1)
    (h2 : AcceptTransactionSet cfg ⟨conf, []⟩ S' = .ok st2)
    (hr : r ∈ setClaims S) (hr' : r ∈ setClaims S')
    (hs1 : isSubseq (setIds S) (setIds S') = false)
    (hs2 : isSubseq (setIds S') (setIds S) = false) :
    AcceptTransactionSet cfg st1 S' = .error .errConflictingTransactionSet ∧
    AcceptTransactionSet cfg (PurgeTransactionPool st1) S' = .ok st2 ∧
    AcceptTransactionSet cfg st2 S = .error .errConflictingTransactionSet := by
  obtain ⟨hne1, hv1, -, -, -, hst1⟩ := accept_ok_inv h1
  obtain ⟨hne2, hv2, -, -, -, hst2⟩ := accept_ok_inv h2
  have hcpS : commitPool ([] : List TSet) S = [S] := rfl
  have hcpS' : commitPool ([] : List TSet) S' = [S'] := rfl
  rw [hcpS] at hst1
  rw [hcpS'] at hst2
  subst hst1
  subst hst2
  have hdup1 : isLeadingSeq (setIds S') (setIds S) = false := by
    rw [← Bool.not_eq_true]
    intro hl
    have := isSubseq_of_isLeadingSeq hl
    rw [this] at hs2
    simp at hs2
  have hdup2 : isLeadingSeq (setIds S) (setIds S') = false := by
    rw [← Bool.not_eq_true]
    intro hl
    have := isSubseq_of_isLeadingSeq hl
    rw [this] at hs1
    simp at hs1
  refine ⟨?_, ?_, ?_⟩
  · refine accept_conflict_of hne2 ?_ ?_ ?_
    · exact validSet_mono (fun x hx => by simp [residentProduces] at hx) hv2
    · simp [isDuplicate, hdup1]
    · exact @claimsAdmissible_false_of [S] S' S r (by simp) hr' hr hs1
  · exact h2
  · refine accept_conflict_of hne1 ?_ ?_ ?_
    · exact validSet_mono (fun x hx => by simp [residentProduces] at hx) hv1
    · simp [isDuplicate, hdup2]
    · exact @claimsAdmissible_false_of [S'] S S' r (by simp) hr hr' hs2

/-- C1 witness for the amended theorem: two distinct one-transaction sets
both spending coin output 0. -/
theorem conflicting_sets_first_accepted_wins_witness :
    AcceptTransactionSet ⟨100, 1⟩ ⟨[Resource.coinOutput 0], []⟩
        [⟨1, [Resource.coinOutput 0], [], 1, 0⟩] =
      .ok ⟨[Resource.coinOutput 0], [[⟨1, [Resource.coinOutput 0], [], 1, 0⟩]]⟩ ∧
    AcceptTransactionSet ⟨100, 1⟩ ⟨[Resource.coinOutput 0], []⟩
        [⟨2, [Resource.coinOutput 0], [], 1, 0⟩] =
      .ok ⟨[Resource.coinOutput 0], [[⟨2, [Resource.coinOutput 0], [], 1, 0⟩]]⟩ ∧
    (AcceptTransactionSet ⟨100, 1⟩
        ⟨[Resource.coinOutput 0], [[⟨1, [Resource.coinOutput 0], [], 1, 0⟩]]⟩
        [⟨2, [Resource.coinOutput 0], [], 1, 0⟩] =
      .error .errConflictingTransactionSet ∧
    AcceptTransactionSet ⟨100, 1⟩
        (PurgeTransactionPool
          ⟨[Resource.coinOutput 0], [[⟨1, [Resource.coinOutput 0], [], 1, 0⟩]]⟩)
        [⟨2, [Resource.coinOutput 0], [], 1, 0⟩] =
      .ok ⟨[Resource.coinOutput 0], [[⟨2, [Resource.coinOutput 0], [], 1, 0⟩]]⟩ ∧
    AcceptTransactionSet ⟨100, 1⟩
        ⟨[Resource.coinOutput 0], [[⟨2, [Resource.coinOutput 0], [], 1, 0⟩]]⟩
        [⟨1, [Resource.coinOutput 0], [], 1, 0⟩] =
      .error .errConflictingTransactionSet) :=
  ⟨by decide, by decide,
    conflicting_sets_first_accepted_wins ⟨100, 1⟩ [Resource.coinOutput 0]
      [⟨1, [Resource.coinOutput 0], [], 1, 0⟩]
      [⟨2, [Resource.coinOutput 0], [], 1, 0⟩]
      ⟨[Resource.coinOutput 0], [[⟨1, [Resource.coinOutput 0], [], 1, 0⟩]]⟩
      ⟨[Resource.coinOutput 0], [[⟨2, [Resource.coinOutput 0], [], 1, 0⟩]]⟩
      (Resource.coinOutput 0)
      (by decide) (by decide) (by decide) (by decide) (by decide) (by decide)⟩

lemma claimsAdmissible_nil (cand : TSet) : claimsAdmissible [] cand = true := by
  simp [claimsAdmissible]

/-- C4: for a two-transaction set `[T1, T2]` (T2 depending on T1, the pair
being individually admissible), if `[T1]` alone has already been accepted
into the empty pool, then accepting `[T1, T2]` succeeds as a superset: the
resident `[T1]` is evicted and replaced, leaving the single resident set
`[T1, T2]`, which is also exactly the state the pair reaches when accepted
directly — so it owns every Conflict Index claim. -/
theorem superset_replaces_resident_subset (cfg : Config) (conf : List Resource)
    (T1 T2 : Transaction) (st1 st2 : State)
    (h1 : AcceptTransactionSet cfg ⟨conf, []⟩ [T1] = .ok st1)
    (h12 : AcceptTransactionSet cfg ⟨conf, []⟩ [T1, T2] = .ok st2)
    (_hdep : ∃ r ∈ T1.produces, r ∈ T2.consumes) :
    AcceptTransactionSet cfg st1 [T1, T2] = .ok ⟨conf, [[T1, T2]]⟩ ∧
    st2 = ⟨conf, [[T1, T2]]⟩ := by
  obtain ⟨-, hv1, -, -, -, hst1⟩ := accept_ok_inv h1
  obtain ⟨hne12, hv12, -, -, hfee12, hst2⟩ := accept_ok_inv h12
  have hcp1 : commitPool ([] : List TSet) [T1] = [[T1]] := rfl
  have hcp12 : commitPool ([] : List TSet) [T1, T2] = [[T1, T2]] := rfl
  rw [hcp1] at hst1
  rw [hcp12] at hst2 hfee12
  subst hst1
  subst hst2
  refine ⟨?_, rfl⟩
  have hsub : subsumedBy [T1, T2] [T1] = true := by
    show isSubseq [T1.id] [T1.id, T2.id] = true
    rw [isSubseq, if_pos rfl]
    rfl
  have hcommit : commitPool [[T1]] [T1, T2] = [[T1, T2]] := by
    simp [commitPool, hsub]
  have hv : validSet conf (residentProduces [[T1]]) [T1, T2] = true :=
    validSet_mono (fun x hx => by simp [residentProduces] at hx) hv12
  have hd : isDuplicate [[T1]] [T1, T2] = false := by
    show (isLeadingSeq [T1.id, T2.id] [T1.id] || false) = false
    rw [isLeadingSeq]
    simp [isLeadingSeq]
  have ha : claimsAdmissible [[T1]] [T1, T2] = true := by
    simp only [claimsAdmissible, List.all_eq_true, decide_eq_true_eq]
    intro x hx res hres hmem
    rw [List.mem_singleton] at hres
    subst hres
    exact hsub
  have hf : ¬(cfg.maxPoolSizeFree < poolSize (commitPool [[T1]] [T1, T2]) ∧
      setFee [T1, T2] < cfg.minFeePerByte * setSize [T1, T2]) := by
    rw [hcommit]
    exact hfee12
  have := @accept_ok_of cfg ⟨conf, [[T1]]⟩ [T1, T2] hne12 hv hd ha hf
  rw [hcommit] at this
  exact this

/-- C4 witness: a concrete funding transaction and its dependent child. -/
theorem superset_replaces_resident_subset_witness :
    AcceptTransactionSet ⟨100, 1⟩ ⟨[Resource.coinOutput 0], []⟩
        [⟨1, [Resource.coinOutput 0], [Resource.coinOutput 10], 1, 0⟩] =
      .ok ⟨[Resource.coinOutput 0],
        [[⟨1, [Resource.coinOutput 0], [Resource.coinOutput 10], 1, 0⟩]]⟩ ∧
    (AcceptTransactionSet ⟨100, 1⟩
        ⟨[Resource.coinOutput 0],
          [[⟨1, [Resource.coinOutput 0], [Resource.coinOutput 10], 1, 0⟩]]⟩
        [⟨1, [Resource.coinOutput 0], [Resource.coinOutput 10], 1, 0⟩,
         ⟨2, [Resource.coinOutput 10], [], 1, 0⟩] =
      .ok ⟨[Resource.coinOutput 0],
        [[⟨1, [Resource.coinOutput 0], [Resource.coinOutput 10], 1, 0⟩,
          ⟨2, [Resource.coinOutput 10], [], 1, 0⟩]]⟩ ∧
    (⟨[Resource.coinOutput 0],
        [[⟨1, [Resource.coinOutput 0], [Resource.coinOutput 10], 1, 0⟩,
          ⟨2, [Resource.coinOutput 10], [], 1, 0⟩]]⟩ : State) =
      ⟨[Resource.coinOutput 0],
        [[⟨1, [Resource.coinOutput 0], [Resource.coinOutput 10], 1, 0⟩,
          ⟨2, [Resource.coinOutput 10], [], 1, 0⟩]]⟩) :=
  ⟨by decide,
    superset_replaces_resident_subset ⟨100, 1⟩ [Resource.coinOutput 0]
      ⟨1, [Resource.coinOutput 0], [Resource.coinOutput 10], 1, 0⟩
      ⟨2, [Resource.coinOutput 10], [], 1, 0⟩
      ⟨[Resource.coinOutput 0],
        [[⟨1, [Resource.coinOutput 0], [Resource.coinOutput 10], 1, 0⟩]]⟩
      ⟨[Resource.coinOutput 0],
        [[⟨1, [Resource.coinOutput 0], [Resource.coinOutput 10], 1, 0⟩,
          ⟨2, [Resource.coinOutput 10], [], 1, 0⟩]]⟩
      (by decide) (by decide) ⟨Resource.coinOutput 10, by decide, by decide⟩⟩

/-- C5: for a valid parent/child pair `[T1, T2]` where T2 spends a resource
that the parent produces (some input of T2 is not confirmed on-chain),
submitting `[T2]` alone with T1 never seen fails with the chain-level
validation error — not a pool-conflict error — while submitting `[T1]` and
then `[T2]` each succeeds, the child resolving its input against the parent
already resident in the pool. -/
theorem child_transaction_dependency (cfg : Config) (conf : List Resource)
    (T1 T2 : Transaction) (r : Resource)
    (hv : validSet conf [] [T1, T2] = true)
    (hrT2 : r ∈ T2.consumes) (hrconf : r ∉ conf)
    (hne : T1.id ≠ T2.id)
    (hOcc : T1.size + T2.size ≤ cfg.maxPoolSizeFree) :
    AcceptTransactionSet cfg ⟨conf, []⟩ [T2] = .error .errChainValidation ∧
    AcceptTransactionSet cfg ⟨conf, []⟩ [T1] = .ok ⟨conf, [[T1]]⟩ ∧
    AcceptTransactionSet cfg ⟨conf, [[T1]]⟩ [T2] = .ok ⟨conf, [[T1], [T2]]⟩ := by
  have hrp0 : residentProduces ([] : List TSet) = [] := rfl
  simp only [validSet, validSetAux, Bool.and_eq_true, List.all_eq_true,
    decide_eq_true_eq, List.nil_append, List.not_mem_nil, or_false, false_or,
    not_false_iff, and_true] at hv
  obtain ⟨hv1, hv2⟩ := hv
  refine ⟨?_, ?_, ?_⟩
  · refine accept_chain_invalid (by simp) ?_
    rw [← Bool.not_eq_true]
    intro hval
    simp only [validSet, validSetAux, hrp0, Bool.and_eq_true, List.all_eq_true,
      decide_eq_true_eq, List.not_mem_nil, or_false, false_or, or_self,
      not_false_iff, and_true] at hval
    exact hrconf (hval r hrT2)
  · have hv' : validSet conf (residentProduces ([] : List TSet)) [T1] = true := by
      rw [hrp0]
      simp only [validSet, validSetAux, Bool.and_eq_true, List.all_eq_true,
        decide_eq_true_eq, List.not_mem_nil, or_false, false_or, or_self,
        not_false_iff, and_true]
      exact fun x hx => hv1 x hx
    have hf : ¬(cfg.maxPoolSizeFree < poolSize (commitPool [] [T1]) ∧
        setFee [T1] < cfg.minFeePerByte * setSize [T1]) := by
      have hp : poolSize (commitPool [] [T1]) = T1.size := by
        simp [commitPool, poolSize, setSize]
      rw [hp]
      intro hc
      omega
    have := @accept_ok_of cfg ⟨conf, []⟩ [T1] (by simp) hv' rfl (claimsAdmissible_nil _) hf
    exact this
  · have hv' : validSet conf (residentProduces [[T1]]) [T2] = true := by
      simp only [validSet, validSetAux, Bool.and_eq_true, List.all_eq_true,
        decide_eq_true_eq, List.not_mem_nil, or_false, false_or,
        not_false_iff, and_true]
      intro x hx
      rcases (hv2 x hx).1 with hc | hp
      · exact Or.inl hc
      · refine Or.inr ?_
        simp [residentProduces, setProduces]
        exact hp
    have hd : isDuplicate [[T1]] [T2] = false := by
      show (isLeadingSeq [T2.id] [T1.id] || false) = false
      rw [isLeadingSeq]
      simp [hne.symm]
    have ha : claimsAdmissible [[T1]] [T2] = true := by
      simp only [claimsAdmissible, List.all_eq_true, decide_eq_true_eq]
      intro x hx res hres hmem
      rw [List.mem_singleton] at hres
      subst hres
      simp only [setClaims, List.flatMap_cons, List.flatMap_nil,
        List.append_nil] at hx hmem
      exact absurd hmem (hv2 x hx).2
    have hns : subsumedBy [T2] [T1] = false := by
      show isSubseq [T1.id] [T2.id] = false
      rw [isSubseq, if_neg hne]
      rfl
    have hcommit : commitPool [[T1]] [T2] = [[T1], [T2]] := by
      simp [commitPool, hns]
    have hf : ¬(cfg.maxPoolSizeFree < poolSize (commitPool [[T1]] [T2]) ∧
        setFee [T2] < cfg.minFeePerByte * setSize [T2]) := by
      have hp : poolSize (commitPool [[T1]] [T2]) = T1.size + T2.size := by
        rw [hcommit]
        simp [poolSize, setSize]
      rw [hp]
      intro hc
      omega
    have := @accept_ok_of cfg ⟨conf, [[T1]]⟩ [T2] (by simp) hv' hd ha hf
    rw [hcommit] at this
    exact this

/-- C5 witness: a concrete parent funding transaction and the child that
spends its output. -/
theorem child_transaction_dependency_witness :
    validSet [Resource.coinOutput 0] []
        [⟨1, [Resource.coinOutput 0], [Resource.coinOutput 10], 1, 0⟩,
         ⟨2, [Resource.coinOutput 10], [], 1, 0⟩] = true ∧
    (AcceptTransactionSet ⟨100, 1⟩ ⟨[Resource.coinOutput 0], []⟩
        [⟨2, [Resource.coinOutput 10], [], 1, 0⟩] =
      .error .errChainValidation ∧
    AcceptTransactionSet ⟨100, 1⟩ ⟨[Resource.coinOutput 0], []⟩
        [⟨1, [Resource.coinOutput 0], [Resource.coinOutput 10], 1, 0⟩] =
      .ok ⟨[Resource.coinOutput 0],
        [[⟨1, [Resource.coinOutput 0], [Resource.coinOutput 10], 1, 0⟩]]⟩ ∧
    AcceptTransactionSet ⟨100, 1⟩
        ⟨[Resource.coinOutput 0],
          [[⟨1, [Resource.coinOutput 0], [Resource.coinOutput 10], 1, 0⟩]]⟩
        [⟨2, [Resource.coinOutput 10], [], 1, 0⟩] =
      .ok ⟨[Resource.coinOutput 0],
        [[⟨1, [Resource.coinOutput 0], [Resource.coinOutput 10], 1, 0⟩],
         [⟨2, [Resource.coinOutput 10], [], 1, 0⟩]]⟩) :=
  ⟨by decide,
    child_transaction_dependency ⟨100, 1⟩ [Resource.coinOutput 0]
      ⟨1, [Resource.coinOutput 0], [Resource.coinOutput 10], 1, 0⟩
      ⟨2, [Resource.coinOutput 10], [], 1, 0⟩
      (Resource.coinOutput 10)
      (by decide) (by decide) (by decide) (by decide) (by decide)⟩

lemma accept_low_fee_of {cfg : Config} {st : State} {cand : TSet}
    (h1 : cand ≠ [])
    (h2 : validSet st.confirmed (residentProduces st.transactionSets) cand = true)
    (h3 : isDuplicate st.transactionSets cand = false)
    (h4 : claimsAdmissible st.transactionSets cand = true)
    (h5 : cfg.maxPoolSizeFree < poolSize (commitPool st.transactionSets cand) ∧
        setFee cand < cfg.minFeePerByte * setSize cand) :
    AcceptTransactionSet cfg st cand = .error .errLowMinerFees := by
  unfold AcceptTransactionSet
  have he : cand.isEmpty = false := by
    cases cand with
    | nil => exact absurd rfl h1
    | cons a as => rfl
  rw [he]
  simp only [Bool.false_eq_true, if_false, h2, h3, Bool.not_true, Bool.not_false,
    Bool.true_eq_false, h4, if_false, if_pos h5]

/-- C7 counterexample: with a free ceiling of 10 bytes and an empty pool
(occupancy 0, strictly below the ceiling), a chain-valid zero-fee
single-transaction set of 11 bytes is rejected with `errLowMinerFees`,
contradicting the claim that zero-fee sets are accepted while occupancy is
below the ceiling: the fee floor is applied to the occupancy *after*
admission (spec §4.2 step 5), so a set that itself crosses the ceiling is
rejected even though occupancy before the call was below it. -/
theorem fee_floor_counterexample :
    poolSize (⟨[Resource.coinOutput 0], []⟩ : State).transactionSets <
      (⟨10, 1⟩ : Config).maxPoolSizeFree ∧
    setFee [⟨1, [Resource.coinOutput 0], [], 11, 0⟩] = 0 ∧
    validSet [Resource.coinOutput 0] [] [⟨1, [Resource.coinOutput 0], [], 11, 0⟩] = true ∧
    AcceptTransactionSet ⟨10, 1⟩ ⟨[Resource.coinOutput 0], []⟩
        [⟨1, [Resource.coinOutput 0], [], 11, 0⟩] = .error .errLowMinerFees := by
  decide

/-- C7 (amended): fee-based admission control for a candidate that passes the
validation, duplicate and conflict checks — if admitting it would keep pool
occupancy at or below the free ceiling it is accepted even with zero fee; if
admission would push occupancy beyond the ceiling and the candidate's
aggregate fee is below the per-byte floor it is rejected with
`errLowMinerFees`; and a candidate whose aggregate fee meets the floor is
accepted regardless of occupancy. -/
theorem fee_floor_admission (cfg : Config) (st : State) (cand : TSet)
    (hne : cand ≠ [])
    (hv : validSet st.confirmed (residentProduces st.transactionSets) cand = true)
    (hd : isDuplicate st.transactionSets cand = false)
    (ha : claimsAdmissible st.transactionSets cand = true) :
    (poolSize (commitPool st.transactionSets cand) ≤ cfg.maxPoolSizeFree →
      AcceptTransactionSet cfg st cand =
        .ok ⟨st.confirmed, commitPool st.transactionSets cand⟩) ∧
    (cfg.maxPoolSizeFree < poolSize (commitPool st.transactionSets cand) →
      setFee cand < cfg.minFeePerByte * setSize cand →
      AcceptTransactionSet cfg st cand = .error .errLowMinerFees) ∧
    (cfg.minFeePerByte * setSize cand ≤ setFee cand →
      AcceptTransactionSet cfg st cand =
        .ok ⟨st.confirmed, commitPool st.transactionSets cand⟩) := by
  refine ⟨?_, ?_, ?_⟩
  · intro h
    exact accept_ok_of hne hv hd ha (fun hc => absurd hc.1 (not_lt.mpr h))
  · intro hsz hfee
    exact accept_low_fee_of hne hv hd ha ⟨hsz, hfee⟩
  · intro h
    exact accept_ok_of hne hv hd ha (fun hc => absurd hc.2 (not_lt.mpr h))

/-- C7 witness: a zero-fee 4-byte set against a 10-byte ceiling. -/
theorem fee_floor_admission_witness :
    ([⟨1, [Resource.coinOutput 0], [], 4, 0⟩] : TSet) ≠ [] ∧
    validSet [Resource.coinOutput 0] (residentProduces [])
      [⟨1, [Resource.coinOutput 0], [], 4, 0⟩] = true ∧
    isDuplicate [] [⟨1, [Resource.coinOutput 0], [], 4, 0⟩] = false ∧
    claimsAdmissible [] [⟨1, [Resource.coinOutput 0], [], 4, 0⟩] = true ∧
    ((poolSize (commitPool [] [⟨1, [Resource.coinOutput 0], [], 4, 0⟩]) ≤ 10 →
      AcceptTransactionSet ⟨10, 1⟩ ⟨[Resource.coinOutput 0], []⟩
          [⟨1, [Resource.coinOutput 0], [], 4, 0⟩] =
        .ok ⟨[Resource.coinOutput 0],
          commitPool [] [⟨1, [Resource.coinOutput 0], [], 4, 0⟩]⟩) ∧
    (10 < poolSize (commitPool [] [⟨1, [Resource.coinOutput 0], [], 4, 0⟩]) →
      setFee [⟨1, [Resource.coinOutput 0], [], 4, 0⟩] <
        1 * setSize [⟨1, [Resource.coinOutput 0], [], 4, 0⟩] →
      AcceptTransactionSet ⟨10, 1⟩ ⟨[Resource.coinOutput 0], []⟩
          [⟨1, [Resource.coinOutput 0], [], 4, 0⟩] = .error .errLowMinerFees) ∧
    (1 * setSize [⟨1, [Resource.coinOutput 0], [], 4, 0⟩] ≤
        setFee [⟨1, [Resource.coinOutput 0], [], 4, 0⟩] →
      AcceptTransactionSet ⟨10, 1⟩ ⟨[Resource.coinOutput 0], []⟩
          [⟨1, [Resource.coinOutput 0], [], 4, 0⟩] =
        .ok ⟨[Resource.coinOutput 0],
          commitPool [] [⟨1, [Resource.coinOutput 0], [], 4, 0⟩]⟩)) :=
  ⟨by decide, by decide, by decide, by decide,
    fee_floor_admission ⟨10, 1⟩ ⟨[Resource.coinOutput 0], []⟩
      [⟨1, [Resource.coinOutput 0], [], 4, 0⟩]
      (by decide) (by decide) (by decide) (by decide)⟩

/-- C8: broadcast version filtering — for any accepted transaction set, with
the peer list declaring versions 0.0.0, 0.4.6, 0.4.7 and 9.9.9 and the
minimum relay version 0.4.7, the relay call goes to exactly the 0.4.7 and
9.9.9 peers; the peers below the minimum are silently skipped (no error is
produced for them, the admission result is unchanged). -/
theorem broadcast_version_filtering (cfg : Config) (st st' : State) (cand : TSet)
    (h : AcceptTransactionSet cfg st cand = .ok st') :
    acceptAndRelay cfg
        [⟨"peerA", [0, 0, 0]⟩, ⟨"peerB", [0, 4, 6]⟩,
         ⟨"peerC", [0, 4, 7]⟩, ⟨"peerD", [9, 9, 9]⟩] st cand =
      (.ok st', [⟨"peerC", [0, 4, 7]⟩, ⟨"peerD", [9, 9, 9]⟩]) := by
  unfold acceptAndRelay
  rw [h]
  rfl

/-- C8 witness: a concrete accepted one-transaction set. -/
theorem broadcast_version_filtering_witness :
    AcceptTransactionSet ⟨100, 1⟩ ⟨[], []⟩ [⟨1, [], [], 1, 0⟩] =
      .ok ⟨[], [[⟨1, [], [], 1, 0⟩]]⟩ ∧
    acceptAndRelay ⟨100, 1⟩
        [⟨"peerA", [0, 0, 0]⟩, ⟨"peerB", [0, 4, 6]⟩,
         ⟨"peerC", [0, 4, 7]⟩, ⟨"peerD", [9, 9, 9]⟩] ⟨[], []⟩ [⟨1, [], [], 1, 0⟩] =
      (.ok ⟨[], [[⟨1, [], [], 1, 0⟩]]⟩,
       [⟨"peerC", [0, 4, 7]⟩, ⟨"peerD", [9, 9, 9]⟩]) :=
  ⟨by decide,
    broadcast_version_filtering ⟨100, 1⟩ ⟨[], []⟩ ⟨[], [[⟨1, [], [], 1, 0⟩]]⟩
      [⟨1, [], [], 1, 0⟩] (by decide)⟩

/-- C9: block-confirmation reconciliation — after `NotifyBlockAccepted`,
every resident set whose Claimed Resources intersect the resources the block
confirmed is removed from the pool, every resident set disjoint from the
block remains resident, and every transaction still appearing in
`TransactionList` belongs to a surviving resident set that is disjoint from
the block (so the transactions of the removed sets no longer appear through
those sets). -/
theorem block_confirmation_reconciliation (st : State) (block : List Transaction) :
    (∀ ts ∈ st.transactionSets,
      ((setClaims ts).any (fun r => (blockConfirmedSpends block).contains r) = true →
        ts ∉ (NotifyBlockAccepted st block).transactionSets) ∧
      ((setClaims ts).any (fun r => (blockConfirmedSpends block).contains r) = false →
        ts ∈ (NotifyBlockAccepted st block).transactionSets)) ∧
    (∀ t ∈ TransactionList (NotifyBlockAccepted st block),
      ∃ ts ∈ st.transactionSets,
        (setClaims ts).any (fun r => (blockConfirmedSpends block).contains r) = false ∧
        t ∈ ts) := by
  constructor
  · intro ts hts
    constructor
    · intro hint hmem
      simp only [NotifyBlockAccepted, List.mem_filter] at hmem
      rw [hint] at hmem
      simp at hmem
    · intro hdisj
      simp only [NotifyBlockAccepted, List.mem_filter]
      exact ⟨hts, by rw [hdisj]; rfl⟩
  · intro t ht
    simp only [TransactionList, NotifyBlockAccepted, List.mem_flatten] at ht
    obtain ⟨ts, hts, htmem⟩ := ht
    rw [List.mem_filter] at hts
    refine ⟨ts, hts.1, ?_, htmem⟩
    have h2 := hts.2
    rwa [Bool.not_eq_eq_eq_not, Bool.not_true] at h2

/-- C9 witness: two resident sets, a block confirming the first set's spend
removes it and keeps the disjoint one. -/
theorem block_confirmation_reconciliation_witness :
    (∀ ts ∈ (⟨[Resource.coinOutput 0, Resource.coinOutput 1],
        [[⟨1, [Resource.coinOutput 0], [], 1, 0⟩],
         [⟨2, [Resource.coinOutput 1], [], 1, 0⟩]]⟩ : State).transactionSets,
      ((setClaims ts).any (fun r =>
          (blockConfirmedSpends [⟨1, [Resource.coinOutput 0], [], 1, 0⟩]).contains r) =
            true →
        ts ∉ (NotifyBlockAccepted
          ⟨[Resource.coinOutput 0, Resource.coinOutput 1],
            [[⟨1, [Resource.coinOutput 0], [], 1, 0⟩],
             [⟨2, [Resource.coinOutput 1], [], 1, 0⟩]]⟩
          [⟨1, [Resource.coinOutput 0], [], 1, 0⟩]).transactionSets) ∧
      ((setClaims ts).any (fun r =>
          (blockConfirmedSpends [⟨1, [Resource.coinOutput 0], [], 1, 0⟩]).contains r) =
            false →
        ts ∈ (NotifyBlockAccepted
          ⟨[Resource.coinOutput 0, Resource.coinOutput 1],
            [[⟨1, [Resource.coinOutput 0], [], 1, 0⟩],
             [⟨2, [Resource.coinOutput 1], [], 1, 0⟩]]⟩
          [⟨1, [Resource.coinOutput 0], [], 1, 0⟩]).transactionSets)) ∧
    (∀ t ∈ TransactionList (NotifyBlockAccepted
        ⟨[Resource.coinOutput 0, Resource.coinOutput 1],
          [[⟨1, [Resource.coinOutput 0], [], 1, 0⟩],
           [⟨2, [Resource.coinOutput 1], [], 1, 0⟩]]⟩
        [⟨1, [Resource.coinOutput 0], [], 1, 0⟩]),
      ∃ ts ∈ (⟨[Resource.coinOutput 0, Resource.coinOutput 1],
          [[⟨1, [Resource.coinOutput 0], [], 1, 0⟩],
           [⟨2, [Resource.coinOutput 1], [], 1, 0⟩]]⟩ : State).transactionSets,
        (setClaims ts).any (fun r =>
          (blockConfirmedSpends [⟨1, [Resource.coinOutput 0], [], 1, 0⟩]).contains r) =
            false ∧
        t ∈ ts) :=
  block_confirmation_reconciliation
    ⟨[Resource.coinOutput 0, Resource.coinOutput 1],
      [[⟨1, [Resource.coinOutput 0], [], 1, 0⟩],
       [⟨2, [Resource.coinOutput 1], [], 1, 0⟩]]⟩
    [⟨1, [Resource.coinOutput 0], [], 1, 0⟩]

/-- C10: when a set A that creates a file contract is resident in the pool
(accepted into the empty pool), a subsequently submitted single-transaction
set containing a revision R of that contract — a fresh transaction whose only
claim is the contract id that A produced but did not itself claim — is
accepted with no block separating the two submissions: the claim on the
contract id created by a different resident set resolves as a cross-set
dependency and is not rejected as a conflict, leaving both sets resident. -/
theorem revision_after_contract_cross_set (cfg : Config) (conf : List Resource)
    (A : TSet) (R : Transaction) (st1 : State) (cid : Nat)
    (h1 : AcceptTransactionSet cfg ⟨conf, []⟩ A = .ok st1)
    (hc : Resource.contract cid ∈ setProduces A)
    (hRc : R.consumes = [Resource.contract cid])
    (hfresh : R.id ∉ setIds A)
    (hnc : Resource.contract cid ∉ setClaims A)
    (hOcc : setSize A + R.size ≤ cfg.maxPoolSizeFree) :
    AcceptTransactionSet cfg st1 [R] = .ok ⟨conf, [A, [R]]⟩ := by
  obtain ⟨hAne, -, -, -, -, hst1⟩ := accept_ok_inv h1
  have hcpA : commitPool ([] : List TSet) A = [A] := rfl
  rw [hcpA] at hst1
  subst hst1
  cases A with
  | nil => exact absurd rfl hAne
  | cons a as =>
  have haid : a.id ∈ setIds (a :: as) := by simp [setIds]
  have hne' : a.id ≠ R.id := fun h => hfresh (h ▸ haid)
  have hv : validSet conf (residentProduces [a :: as]) [R] = true := by
    simp only [validSet, validSetAux, Bool.and_eq_true, List.all_eq_true,
      decide_eq_true_eq, List.not_mem_nil, or_false, false_or, not_false_iff,
      and_true, hRc]
    intro x hx
    rw [List.mem_singleton] at hx
    subst hx
    refine Or.inr ?_
    simp only [residentProduces, List.mem_flatMap]
    exact ⟨a :: as, by simp, hc⟩
  have hd : isDuplicate [a :: as] [R] = false := by
    show (isLeadingSeq [R.id] (setIds (a :: as)) || false) = false
    have hne'' : R.id ≠ a.id := fun h => hne' h.symm
    simp [setIds, isLeadingSeq, hne'']
  have hns : subsumedBy [R] (a :: as) = false := by
    show isSubseq (setIds (a :: as)) [R.id] = false
    show isSubseq (a.id :: setIds as) [R.id] = false
    rw [isSubseq, if_neg hne']
    rfl
  have ha : claimsAdmissible [a :: as] [R] = true := by
    simp only [claimsAdmissible, List.all_eq_true, decide_eq_true_eq]
    intro r hr res hres hmem
    rw [List.mem_singleton] at hres
    subst hres
    simp only [setClaims, List.flatMap_cons, List.flatMap_nil, List.append_nil,
      hRc] at hr
    rw [List.mem_singleton] at hr
    subst hr
    exact absurd hmem hnc
  have hcommit : commitPool [a :: as] [R] = [a :: as, [R]] := by
    simp [commitPool, hns]
  have hf : ¬(cfg.maxPoolSizeFree < poolSize (commitPool [a :: as] [R]) ∧
      setFee [R] < cfg.minFeePerByte * setSize [R]) := by
    have hp : poolSize (commitPool [a :: as] [R]) = setSize (a :: as) + R.size := by
      rw [hcommit]
      simp [poolSize, setSize]
    rw [hp]
    intro hcon
    omega
  have := @accept_ok_of cfg ⟨conf, [a :: as]⟩ [R] (by simp) hv hd ha hf
  rw [hcommit] at this
  exact this

/-- C10 witness: a contract-creating transaction followed by a revision of
the created contract. -/
theorem revision_after_contract_cross_set_witness :
    AcceptTransactionSet ⟨100, 1⟩ ⟨[Resource.coinOutput 0], []⟩
        [⟨1, [Resource.coinOutput 0], [Resource.contract 5], 1, 0⟩] =
      .ok ⟨[Resource.coinOutput 0],
        [[⟨1, [Resource.coinOutput 0], [Resource.contract 5], 1, 0⟩]]⟩ ∧
    Resource.contract 5 ∈
      setProduces [⟨1, [Resource.coinOutput 0], [Resource.contract 5], 1, 0⟩] ∧
    AcceptTransactionSet ⟨100, 1⟩
        ⟨[Resource.coinOutput 0],
          [[⟨1, [Resource.coinOutput 0], [Resource.contract 5], 1, 0⟩]]⟩
        [⟨2, [Resource.contract 5], [], 1, 0⟩] =
      .ok ⟨[Resource.coinOutput 0],
        [[⟨1, [Resource.coinOutput 0], [Resource.contract 5], 1, 0⟩],
         [⟨2, [Resource.contract 5], [], 1, 0⟩]]⟩ :=
  ⟨by decide, by decide,
    revision_after_contract_cross_set ⟨100, 1⟩ [Resource.coinOutput 0]
      [⟨1, [Resource.coinOutput 0], [Resource.contract 5], 1, 0⟩]
      ⟨2, [Resource.contract 5], [], 1, 0⟩
      ⟨[Resource.coinOutput 0],
        [[⟨1, [Resource.coinOutput 0], [Resource.contract 5], 1, 0⟩]]⟩
      5 (by decide) (by decide) (by decide) (by decide) (by decide) (by decide)⟩
